import Mathlib

/-!
Shallow embedding of the `dicom_extraction` de-identification pipeline
(`src/dicom_extraction/...`) and verification of the frozen claims about it.

Python dicts are embedded as association lists of `String × Val` with
Python's insertion-order semantics (`dSet` overwrites in place, `dUpdate`
is `dict.update`, `dSetdefault` is `dict.setdefault`).  Fallible Python
code (exceptions, `assert`) is embedded with `Option`/`Except`.
-/

namespace Deid

/-- The value domain of the embedded dicts: Python strings, ints, bools and
`None`.  (pydicom `MultiValue`-to-`list` conversion and byte values are not
exercised by any claim; values not of these shapes never arise in the
claims' inputs.) -/
inductive Val where
  | str (s : String)
  | int (n : Int)
  | bool (b : Bool)
  | null
deriving DecidableEq, Repr

/-- A Python dict: association list in insertion order, keys unique when
built by the operations below. -/
def Dict := List (String × Val)

instance : DecidableEq Dict := by
  unfold Dict
  infer_instance

instance : Repr Dict := by
  unfold Dict
  infer_instance

/-- Lookup (`d[k]` / `d.get(k)`): first binding of the key. -/
def dGet (d : Dict) (k : String) : Option Val :=
  match d with
  | [] => none
  | (k', v) :: rest => if k' = k then some v else dGet rest k

/-- Assignment `d[k] = v`: overwrite the binding in place if the key is
present, else append at the end (Python dict insertion order). -/
def dSet (d : Dict) (k : String) (v : Val) : Dict :=
  match d with
  | [] => [(k, v)]
  | (k', v') :: rest => if k' = k then (k', v) :: rest else (k', v') :: dSet rest k v

/-- Model of `d1.update(d2)`: write every binding of `d2` into `d1`, overwriting on
collision. -/
def dUpdate (d1 d2 : Dict) : Dict :=
  d2.foldl (fun acc kv => dSet acc kv.1 kv.2) d1

/-- Model of `d.setdefault(k, v)`: insert only if the key is absent. -/
def dSetdefault (d : Dict) (k : String) (v : Val) : Dict :=
  match dGet d k with
  | some _ => d
  | none => dSet d k v

/-- Model of `classes/patient_identifiers.py`: the `PatientIdentifiers` dataclass. -/
structure PatientIdentifiers where
  PatientID : String
  PatientName : String
  StudyInstanceUID : String
  StudyID : String
  SOPInstanceUID : String
deriving DecidableEq, Repr

/-- Model of `identifiers.__dict__` of the dataclass: the five fields in declaration
order. -/
def PatientIdentifiers.toDict (ids : PatientIdentifiers) : Dict :=
  [ ("PatientID", Val.str ids.PatientID),
    ("PatientName", Val.str ids.PatientName),
    ("StudyInstanceUID", Val.str ids.StudyInstanceUID),
    ("StudyID", Val.str ids.StudyID),
    ("SOPInstanceUID", Val.str ids.SOPInstanceUID) ]

/-- Model of `deidentify_helper.get_anonymized_identifiers`: builds the dummy
identifiers from the three strings handed in by the caller
(f-string interpolation of the arguments, joined by hyphens). -/
def get_anonymized_identifiers (anon_patient_id anon_study_id anon_file_id : String) :
    PatientIdentifiers :=
  { PatientID := anon_patient_id
    PatientName := anon_patient_id
    StudyInstanceUID := anon_patient_id ++ "-" ++ anon_study_id
    StudyID := anon_patient_id ++ "-" ++ anon_study_id
    SOPInstanceUID := anon_patient_id ++ "-" ++ anon_study_id ++ "-" ++ anon_file_id }

/-- Model of `deidentify_process.generate_anonymized_metadata` (lines 66-71) calls
`get_anonymized_identifiers(dicom_file.patient_folder, dicom_file.study_folder,
dicom_file.anon_dicom_id)`: the first two arguments are the *folder names*
(`patient_<p>`, `study_<s>` for an accepted record with indices `p`, `s`) and
the third is the 0-based instance index, formatted by the f-string as its
decimal rendering (`Nat.repr` = Python `str`). -/
def anonIdentifiersOfIndices (p s i : Nat) : PatientIdentifiers :=
  get_anonymized_identifiers ("patient_" ++ Nat.repr p) ("study_" ++ Nat.repr s) (Nat.repr i)

/-- Python `str.upper()` (all strings involved are ASCII, where it agrees
with the character-wise `Char.toUpper`). -/
def pyUpper (s : String) : String := (s.data.map Char.toUpper).asString

/-! ## Numeric string helpers (`helpers/dicom_helper.py`, and Python `int`) -/

/-- The value of a decimal digit run (most significant first). -/
def natOfDigits (l : List Char) : Nat :=
  l.foldl (fun a c => 10 * a + (c.toNat - 48)) 0

/-- Python `int(s)`: optional sign followed by a non-empty digit run.
(Python additionally tolerates surrounding whitespace and interior
underscores; no input reaching `int` in this code carries those.) -/
def pyParseInt (s : String) : Option Int :=
  match s.data with
  | [] => none
  | '-' :: rest =>
      if rest ≠ [] ∧ rest.all Char.isDigit then some (-(natOfDigits rest : Int)) else none
  | '+' :: rest =>
      if rest ≠ [] ∧ rest.all Char.isDigit then some ((natOfDigits rest : Int)) else none
  | l => if l.all Char.isDigit then some ((natOfDigits l : Int)) else none

/-- The index computed by the loop in `string_to_int` (lines 8-13): the first
position holding a character other than `'0'`, capped at the last position
(the loop breaks at `i == len(string) - 1`); `0` for the empty string, where
the loop body never runs. -/
def intStartIndex (l : List Char) : Nat :=
  min (l.findIdx (fun c => c ≠ '0')) (l.length - 1)

/-- Model of `dicom_helper.string_to_int`: strip leading zeros (keeping the final
character), then Python `int`; `None` when `int` raises. -/
def string_to_int (s : String) : Option Int :=
  pyParseInt ((s.data.drop (intStartIndex s.data)).asString)

/-- Model of `dicom_helper.extract_modified_age`: last character is the unit, the rest
is parsed by `string_to_int`, clamped by `min(·, 90)` and re-joined by the
f-string.  The empty string (`agestring[-1]` raises) and a failed parse
(`min(None, 90)` raises) both yield `None`. -/
def extract_modified_age (agestring : String) : Option String :=
  match agestring.data with
  | [] => none
  | c :: cs =>
      let unit := (c :: cs).getLast (List.cons_ne_nil c cs)
      match string_to_int ((c :: cs).dropLast.asString) with
      | some n => some ((toString (min n 90)).push unit)
      | none => none

/-- The PatientAge magnitude normalisation as claim C8 words it (for
comparison with the code's output): leading zeros stripped, a single "0"
kept when the magnitude is all zeros. -/
def stripLeadingZeros (s : String) : String :=
  match s.data.dropWhile (fun c => c = '0') with
  | [] => "0"
  | l => l.asString

/-! ## Calendar model for `strptime(s, "%Y%m%d")` and `date.weekday()`. -/

/-- Proleptic Gregorian leap year, as used by Python `datetime.date`. -/
def isLeapYear (y : Nat) : Bool :=
  (y % 4 == 0 && y % 100 != 0) || y % 400 == 0

/-- Length of month `m` (1-12) in year `y`. -/
def daysInMonth (y m : Nat) : Nat :=
  if m = 2 then (if isLeapYear y then 29 else 28)
  else if m = 4 ∨ m = 6 ∨ m = 9 ∨ m = 11 then 30
  else 31

/-- Days in the months strictly before month `m` (1-12) of year `y`. -/
def daysBeforeMonth (y m : Nat) : Nat :=
  (match m with
   | 1 => 0 | 2 => 31 | 3 => 59 | 4 => 90 | 5 => 120 | 6 => 151
   | 7 => 181 | 8 => 212 | 9 => 243 | 10 => 273 | 11 => 304 | _ => 334)
  + (if 2 < m ∧ isLeapYear y then 1 else 0)

/-- Model of `date(y, m, d).toordinal()`: day number with day 1 = January 1 of year 1. -/
def toOrdinal (y m d : Nat) : Nat :=
  365 * (y - 1) + (y - 1) / 4 - (y - 1) / 100 + (y - 1) / 400 + daysBeforeMonth y m + d

/-- The month token of CPython strptime's `%m` regex `1[0-2]|0[1-9]|[1-9]`:
a two-character match is preferred, else a single non-zero digit. -/
def parseMonth (l : List Char) : Option (Nat × List Char) :=
  match l with
  | c1 :: c2 :: rest =>
      if (c1 = '1' ∧ '0' ≤ c2 ∧ c2 ≤ '2') ∨ (c1 = '0' ∧ '1' ≤ c2 ∧ c2 ≤ '9') then
        some (natOfDigits [c1, c2], rest)
      else if '1' ≤ c1 ∧ c1 ≤ '9' then some (natOfDigits [c1], c2 :: rest)
      else none
  | [c1] => if '1' ≤ c1 ∧ c1 ≤ '9' then some (natOfDigits [c1], []) else none
  | [] => none

/-- The day token of CPython strptime's `%d` regex
`3[01]|[12]\x5cd|0[1-9]|[1-9]`: two characters preferred. -/
def parseDay (l : List Char) : Option (Nat × List Char) :=
  match l with
  | c1 :: c2 :: rest =>
      if (c1 = '3' ∧ (c2 = '0' ∨ c2 = '1')) ∨ ((c1 = '1' ∨ c1 = '2') ∧ c2.isDigit)
          ∨ (c1 = '0' ∧ '1' ≤ c2 ∧ c2 ≤ '9') then
        some (natOfDigits [c1, c2], rest)
      else if '1' ≤ c1 ∧ c1 ≤ '9' then some (natOfDigits [c1], c2 :: rest)
      else none
  | [c1] => if '1' ≤ c1 ∧ c1 ≤ '9' then some (natOfDigits [c1], []) else none
  | [] => none

/-- Model of `datetime.strptime(s, "%Y%m%d").date()`: four year digits, a month token,
a day token, nothing left over, then `date` validation (year at least 1, the
day within the month; the month is 1-12 and the day nonzero by the token
grammar, and the year is at most 9999 having four digits). -/
def parseDateYMD (s : String) : Option (Nat × Nat × Nat) :=
  match s.data with
  | a :: b :: c :: d :: rest =>
      if a.isDigit ∧ b.isDigit ∧ c.isDigit ∧ d.isDigit then
        let y := natOfDigits [a, b, c, d]
        match parseMonth rest with
        | some (m, rest2) =>
            match parseDay rest2 with
            | some (dd, []) => if 1 ≤ y ∧ dd ≤ daysInMonth y m then some (y, m, dd) else none
            | _ => none
        | none => none
      else none
  | _ => none

/-- Model of `dicom_helper.extract_weekday_from_date`: `date.weekday()`, Monday = 0.
Ordinal 1 (January 1, year 1) is a Monday, so the weekday is
`(toordinal + 6) % 7`. -/
def extract_weekday_from_date (s : String) : Option Int :=
  match parseDateYMD s with
  | some (y, m, d) => some (((toOrdinal y m d + 6) % 7 : Nat) : Int)
  | none => none

/-- Model of `dicom_helper.extract_year_from_date`. -/
def extract_year_from_date (s : String) : Option Int :=
  match parseDateYMD s with
  | some (y, _, _) => some (y : Int)
  | none => none

/-- Model of `dicom_helper.extract_hour_of_day_from_time`: requires a string of length
at least 2, parses its first two characters with Python `int`, and keeps the
result only if it lies in `range(24)`. -/
def extract_hour_of_day_from_time (s : String) : Option Int :=
  if 2 ≤ s.length then
    match pyParseInt (s.data.take 2).asString with
    | some h => if 0 ≤ h ∧ h < 24 then some h else none
    | none => none
  else none

/-- Model of the PatientAge entry of `extract_special_metadata` at the `Val` level: the
stored value is `extract_modified_age`'s result, `None` on failure; a
non-string raises inside `extract_modified_age`'s `try`, also giving
`None`. -/
def vExtractModifiedAge : Val → Val
  | Val.str s =>
      match extract_modified_age s with
      | some r => Val.str r
      | none => Val.null
  | _ => Val.null

/-- Model of the day-of-week entry of `extract_special_metadata` at the `Val` level
(`strptime` raises on a non-string). -/
def vExtractWeekday : Val → Val
  | Val.str s =>
      match extract_weekday_from_date s with
      | some n => Val.int n
      | none => Val.null
  | _ => Val.null

/-- Model of the year entry of `extract_special_metadata` at the `Val` level. -/
def vExtractYear : Val → Val
  | Val.str s =>
      match extract_year_from_date s with
      | some n => Val.int n
      | none => Val.null
  | _ => Val.null

/-- Model of the hour entry of `extract_special_metadata` at the `Val` level (the source
checks `type(studytime_string) == str` itself). -/
def vExtractHour : Val → Val
  | Val.str s =>
      match extract_hour_of_day_from_time s with
      | some n => Val.int n
      | none => Val.null
  | _ => Val.null

/-! ## Pixel codec (`get_dicom_pixel` and the pixel steps of
`get_anonymized_dicom_from_metadata_png`).
Samples are naturals reduced modulo the numpy dtype width; pydicom allocates
the pixel array with a dtype of `bitsAllocated` bits, so the dtype width is
`bitsAllocated`. -/

/-- Model of `np.invert` on an unsigned `w`-bit array, per sample. -/
def npInvert (w x : Nat) : Nat := 2 ^ w - 1 - x

/-- Model of `<<` on an unsigned `w`-bit array, per sample (wraps modulo the dtype). -/
def npShiftLeft (w k x : Nat) : Nat := x * 2 ^ k % 2 ^ w

/-- Model of `>>` on an unsigned array, per sample. -/
def npShiftRight (k x : Nat) : Nat := x / 2 ^ k

/-- Model of `deidentify_helper.get_dicom_pixel` (lines 29-47), given the parsed pixel
array and the three tag values: left-shift by `bitsAllocated - bitsStored`
when the two differ, then invert when the upper-cased photometric
interpretation is MONOCHROME1. -/
def get_dicom_pixel (bitsAllocated bitsStored : Nat) (photometric : String)
    (pixelArray : List (List Nat)) : List (List Nat) :=
  let a1 :=
    if bitsStored ≠ bitsAllocated then
      pixelArray.map (List.map (npShiftLeft bitsAllocated (bitsAllocated - bitsStored)))
    else pixelArray
  if pyUpper photometric = "MONOCHROME1" then a1.map (List.map (npInvert bitsAllocated)) else a1

/-- The pixel steps of `get_anonymized_dicom_from_metadata_png` (lines
140-144): invert when the photometric interpretation equals MONOCHROME1
exactly (no case folding here), then right-shift by
`bitsAllocated - bitsStored`. -/
def reconstructPixelArray (bitsAllocated bitsStored : Nat) (photometric : String)
    (pixelArray : List (List Nat)) : List (List Nat) :=
  let a1 :=
    if photometric = "MONOCHROME1" then pixelArray.map (List.map (npInvert bitsAllocated))
    else pixelArray
  a1.map (List.map (npShiftRight (bitsAllocated - bitsStored)))

/-! ## Metadata extraction (`deidentify_helper.py`) -/

/-- The parsed content of one source file, as the pydicom collaborator hands
it to this code: the main data-set elements, the file-meta elements, and the
two transfer-syntax flags. -/
structure DicomFile where
  name : String
  elems : Dict
  fileMeta : Dict
  isImplicitVR : Bool
  isLittleEndian : Bool
deriving DecidableEq, Repr

/-- Model of `FILEMETA_KEYWORDS` (lines 21-25). -/
def FILEMETA_KEYWORDS : List String :=
  ["FileMetaInformationGroupLength", "FileMetaInformationVersion", "TransferSyntaxUID"]

/-- Model of `validate_keywords` (lines 279-286): the assertion passes exactly when no
keyword is rejected by the (external) pydicom data dictionary, abstracted as
the validity predicate `isValid`. -/
def validate_keywords (isValid : String → Bool) (keywords : List String) : Bool :=
  (keywords.filter (fun k => !isValid k)).isEmpty

/-- Model of `extract_metadata_from_dicom` (lines 289-314): validate the configured
keyword list (an `AssertionError` aborts the caller), then copy each listed
element present in the data set, skipping `PixelData`.  (The
`MultiValue`-to-`list` conversion is a representation change inside the
external value domain.) -/
def extract_metadata_from_dicom (isValid : String → Bool) (tagsCsv : List String)
    (dicom : DicomFile) : Except String Dict :=
  if validate_keywords isValid tagsCsv then
    Except.ok (tagsCsv.foldl (fun acc kw =>
      if kw = "PixelData" then acc
      else
        match dGet dicom.elems kw with
        | some v => dSet acc kw v
        | none => acc) [])
  else Except.error "Invalid keywords"

/-- One iteration of the loop of `extract_special_metadata` (lines 348-373): a
keyword absent from the data set is skipped; `PatientAge`, `StudyDate` and
`StudyTime` store their derived entries; every other keyword — including
`PatientBirthDate`, which is in `private_keywords_in_dicom` but has no
branch — contributes nothing. -/
def specialStep (elems : Dict) (acc : Dict) (kw : String) : Dict :=
  match dGet elems kw with
  | none => acc
  | some v =>
      if kw = "PatientAge" then dSet acc "age" (vExtractModifiedAge v)
      else if kw = "StudyDate" then
        dSet (dSet acc "day_of_week" (vExtractWeekday v)) "year" (vExtractYear v)
      else if kw = "StudyTime" then dSet acc "hour_of_the_day" (vExtractHour v)
      else acc

/-- Model of `extract_special_metadata` (lines 331-374). -/
def extract_special_metadata (isValid : String → Bool) (tagsCsv : List String)
    (dicom : DicomFile) : Except String Dict :=
  if validate_keywords isValid tagsCsv then
    Except.ok (tagsCsv.foldl (specialStep dicom.elems) [])
  else Except.error "Invalid keywords"

/-- Model of `extract_dicom_header_metadata` (lines 262-276): copy the three
`FILEMETA_KEYWORDS` out of `dicom.file_meta` (a missing one raises a
`KeyError`), plus the two flags. -/
def extract_dicom_header_metadata (dicom : DicomFile) :
    Except String (Dict × Bool × Bool) :=
  match FILEMETA_KEYWORDS.foldl (fun acc kw =>
    match acc with
    | Except.error e => Except.error e
    | Except.ok d =>
        match dGet dicom.fileMeta kw with
        | some v => Except.ok (dSet d kw v)
        | none => Except.error kw) (Except.ok ([] : Dict)) with
  | Except.ok fm => Except.ok (fm, dicom.isImplicitVR, dicom.isLittleEndian)
  | Except.error e => Except.error e

/-- The record built by `extract_anonymized_metadata`. -/
structure AnonMetadata where
  header : Dict
  minimal : Dict
  additional : Dict
  special : Dict
  all : Dict
deriving DecidableEq, Repr

/-- Model of `extract_anonymized_metadata` (lines 50-97), given the already-parsed
file (`pydicom.dcmread` is the external parser): header, minimal, additional
and special extraction, then `minimal.update(ids.__dict__)` and the merged
`all` dict `{**minimal, **additional, **special, **header}` (later sources
win on collision). -/
def extract_anonymized_metadata (isValid : String → Bool)
    (minimalTags additionalTags modifyTags : List String)
    (dicom : DicomFile) (ids : PatientIdentifiers) : Except String AnonMetadata := do
  let (filemeta, iVR, iLE) ← extract_dicom_header_metadata dicom
  let header := dSet (dSet filemeta "is_implicit_VR" (Val.bool iVR))
    "is_little_endian" (Val.bool iLE)
  let minimal0 ← extract_metadata_from_dicom isValid minimalTags dicom
  let additional ← extract_metadata_from_dicom isValid additionalTags dicom
  let special ← extract_special_metadata isValid modifyTags dicom
  let minimal := dUpdate minimal0 ids.toDict
  let allMeta := dUpdate (dUpdate (dUpdate minimal additional) special) header
  pure { header := header, minimal := minimal, additional := additional,
         special := special, all := allMeta }

/-! ## Data-set construction (`create_new_dicom`, `create_basic_filemeta`) -/

/-- Model of `create_basic_filemeta` (lines 377-383). -/
def create_basic_filemeta : Dict :=
  [ ("MediaStorageSOPClassUID", Val.str "1.2.3"),
    ("MediaStorageSOPInstanceUID", Val.str "1.2.3"),
    ("ImplementationClassUID", Val.str "1.2.3.4") ]

/-- Step 1 of `create_new_dicom` (lines 189-196):
`file_meta.update(create_basic_filemeta())`, then `setdefault` of every item
of the updated dict into a fresh empty `FileMetaDataset`. -/
def create_new_dicom_filemeta (file_meta : Dict) : Dict :=
  let merged := dUpdate file_meta create_basic_filemeta
  merged.foldl (fun acc kv => dSetdefault acc kv.1 kv.2) []

/-! ## Output naming (`helpers/utils.py`) -/

/-- Model of `utils.generate_png_name` (lines 35-38), with the sha256 hex digest as
the external collaborator `h`. -/
def generate_png_name (h : String → String) (filename : String) : String :=
  "generated_id_" ++ (h filename).take 8

/-- Python `str.find`: lowest index where the substring occurs, `-1` when it
does not. -/
def pyFind (s sub : String) : Int :=
  match (List.range (s.length + 1)).find? (fun i => (s.data.drop i).take sub.length == sub.data) with
  | some i => (i : Int)
  | none => -1

/-- Python slicing `s[:i]`, including the negative-index convention. -/
def pySliceTo (s : String) (i : Int) : String :=
  let j : Nat := if i < 0 then s.length - (-i).toNat else i.toNat
  (s.data.take j).asString

/-- Model of `utils.get_dicom_filename` (lines 41-45): `filename[: filename.find(".dcm")]`
then `generate_png_name`. -/
def get_dicom_filename (h : String → String) (filename : String) : String :=
  generate_png_name h (pySliceTo filename (pyFind filename ".dcm"))

/-- Model of `utils.get_png_path` (lines 48-56): the raster file name
`{patient_folder}-{study_folder}-{get_dicom_filename(...)}.png`. -/
def get_png_path (h : String → String)
    (patient_folder study_folder filename : String) : String :=
  patient_folder ++ "-" ++ study_folder ++ "-" ++ get_dicom_filename h filename ++ ".png"

/-! ## File discovery (`deidentify_process.get_list_of_all_dicom_files`) -/

/-- The inner loop of `get_list_of_all_dicom_files` (lines 210-237):
`enumerate` the study folder's full listing, skip entries whose content
sniff is not DICOM-family, and record `(anon_dicom_id, filename)` for the
rest; `sniff f` stands for `"DICOM" in magic.from_file(f)`. -/
def collectStudyFiles (sniff : String → Bool) : Nat → List String → List (Nat × String)
  | _, [] => []
  | i, f :: fs =>
      if sniff f then (i, f) :: collectStudyFiles sniff (i + 1) fs
      else collectStudyFiles sniff (i + 1) fs

/-! ## The metadata-generation run (`generate_anonymized_metadata`, lines
52-80), instrumented with the externally visible events needed to settle
claim C6: which source files get read, and which rows are produced. -/

/-- Events of a metadata-generation run. -/
inductive Event where
  | fileRead (name : String)
  | rowEmitted (name : String)
deriving DecidableEq, Repr

/-- One discovered source record as the loop consumes it: the folder names
and instance index assigned by discovery, the on-disk filename, and the
file's parsed content. -/
structure DiscoveredFile where
  patient_folder : String
  study_folder : String
  anon_dicom_id : Nat
  filename : String
  file : DicomFile
deriving Repr

/-- The loop of `generate_anonymized_metadata` (lines 66-77) over the
already-discovered files: per file, compute the identifiers, read the file
(`pydicom.dcmread` inside `extract_anonymized_metadata` — the `fileRead`
event), extract, and append the row `all + filename`; an exception (the
keyword-validation `AssertionError` included) propagates and aborts the
whole run, and no rows are written (`to_csv` runs only after the loop). -/
def runGenerateMetadata (h : String → String) (isValid : String → Bool)
    (minimalTags additionalTags modifyTags : List String) :
    List DiscoveredFile → List Event × Except String (List Dict)
  | [] => ([], Except.ok [])
  | f :: rest =>
      let ids := get_anonymized_identifiers f.patient_folder f.study_folder
        (Nat.repr f.anon_dicom_id)
      match extract_anonymized_metadata isValid minimalTags additionalTags modifyTags
        f.file ids with
      | Except.error e => ([Event.fileRead f.file.name], Except.error e)
      | Except.ok md =>
          let row := dSet md.all "filename" (Val.str (get_dicom_filename h f.filename))
          match runGenerateMetadata h isValid minimalTags additionalTags modifyTags rest with
          | (evs, Except.ok rows) =>
              (Event.fileRead f.file.name :: Event.rowEmitted f.file.name :: evs,
               Except.ok (row :: rows))
          | (evs, Except.error e) =>
              (Event.fileRead f.file.name :: Event.rowEmitted f.file.name :: evs,
               Except.error e)

/-! # Theorems -/

/-! ## Dict lemmas -/

theorem dGet_dSet (d : Dict) (k : String) (v : Val) (q : String) :
    dGet (dSet d k v) q = if k = q then some v else dGet d q := by
  induction d with
  | nil => by_cases h : k = q <;> simp [dSet, dGet, h]
  | cons a rest ih =>
      obtain ⟨ak, av⟩ := a
      by_cases h1 : ak = k
      · subst h1
        by_cases h2 : ak = q <;> simp [dSet, dGet, h2]
      · by_cases h2 : ak = q
        · have hkq : k ≠ q := fun hh => h1 (h2.trans hh.symm)
          simp [dSet, dGet, h1, h2, hkq, Ne.symm hkq]
        · simp [dSet, dGet, h1, h2, ih]

theorem dGet_foldl_setdefault (items : List (String × Val)) (acc : Dict) (q : String) :
    dGet (items.foldl (fun a kv => dSetdefault a kv.1 kv.2) acc) q =
      (dGet acc q).or (dGet items q) := by
  induction items generalizing acc with
  | nil => cases h : dGet acc q <;> simp [List.foldl_nil, dGet, Option.or, h]
  | cons kv rest ih =>
      obtain ⟨k1, v1⟩ := kv
      simp only [List.foldl_cons]
      rw [ih]
      unfold dSetdefault
      cases hk1 : dGet acc k1 with
      | some w =>
          cases hq : dGet acc q with
          | some u => simp [Option.or, hq]
          | none =>
              by_cases h : k1 = q
              · rw [h] at hk1; rw [hk1] at hq; exact absurd hq (by simp)
              · simp [Option.or, hq, dGet, h]
      | none =>
          rw [dGet_dSet]
          by_cases h : k1 = q
          · subst h
            rw [hk1]
            simp [Option.or, dGet]
          · cases hq : dGet acc q <;> simp [Option.or, hq, dGet, h]

/-! ## C2: identity keys overwritten by the synthetic identifiers -/

theorem dGet_dUpdate_ids (d : Dict) (ids : PatientIdentifiers) :
    dGet (dUpdate d ids.toDict) "PatientID" = some (Val.str ids.PatientID) ∧
    dGet (dUpdate d ids.toDict) "PatientName" = some (Val.str ids.PatientName) ∧
    dGet (dUpdate d ids.toDict) "StudyInstanceUID" = some (Val.str ids.StudyInstanceUID) ∧
    dGet (dUpdate d ids.toDict) "StudyID" = some (Val.str ids.StudyID) ∧
    dGet (dUpdate d ids.toDict) "SOPInstanceUID" = some (Val.str ids.SOPInstanceUID) := by
  simp [dUpdate, PatientIdentifiers.toDict, List.foldl_cons, List.foldl_nil, dGet_dSet]

/-- C2: for every source data set and every supplied synthetic-identifier
record, whenever `extract_anonymized_metadata` produces a record, its
"minimal" mapping sends each of PatientID, PatientName, StudyInstanceUID,
StudyID and SOPInstanceUID to the synthetic identifier's value, regardless
of the values (if any) the original data set carried for those keys. -/
theorem identity_overwrite_invariant (isValid : String → Bool)
    (minimalTags additionalTags modifyTags : List String)
    (dicom : DicomFile) (ids : PatientIdentifiers) (md : AnonMetadata)
    (h : extract_anonymized_metadata isValid minimalTags additionalTags modifyTags
      dicom ids = Except.ok md) :
    dGet md.minimal "PatientID" = some (Val.str ids.PatientID) ∧
    dGet md.minimal "PatientName" = some (Val.str ids.PatientName) ∧
    dGet md.minimal "StudyInstanceUID" = some (Val.str ids.StudyInstanceUID) ∧
    dGet md.minimal "StudyID" = some (Val.str ids.StudyID) ∧
    dGet md.minimal "SOPInstanceUID" = some (Val.str ids.SOPInstanceUID) := by
  unfold extract_anonymized_metadata at h
  cases hh : extract_dicom_header_metadata dicom with
  | error e => rw [hh] at h; exact absurd h (by simp [Except.bind, Bind.bind])
  | ok trip =>
      obtain ⟨fm, iVR, iLE⟩ := trip
      rw [hh] at h
      cases h1 : extract_metadata_from_dicom isValid minimalTags dicom with
      | error e => rw [h1] at h; exact absurd h (by simp [Except.bind, Bind.bind])
      | ok minimal0 =>
          rw [h1] at h
          cases h2 : extract_metadata_from_dicom isValid additionalTags dicom with
          | error e => rw [h2] at h; exact absurd h (by simp [Except.bind, Bind.bind])
          | ok additional =>
              rw [h2] at h
              cases h3 : extract_special_metadata isValid modifyTags dicom with
              | error e => rw [h3] at h; exact absurd h (by simp [Except.bind, Bind.bind])
              | ok special =>
                  rw [h3] at h
                  simp only [Except.bind, Bind.bind, pure, Except.pure, Except.ok.injEq] at h
                  rw [← h]
                  exact dGet_dUpdate_ids minimal0 ids

/-- C2 witness: the theorem applied at a concrete input. -/
theorem identity_overwrite_invariant_witness :
    dGet (dUpdate [] (PatientIdentifiers.mk "patient_1" "patient_1" "patient_1-study_1"
      "patient_1-study_1" "patient_1-study_1-0").toDict) "PatientID" =
        some (Val.str "patient_1") := by
  have h := identity_overwrite_invariant (fun _ => true) [] [] []
    { name := "f", elems := [],
      fileMeta := [("FileMetaInformationGroupLength", Val.int 0),
        ("FileMetaInformationVersion", Val.str "b0001"),
        ("TransferSyntaxUID", Val.str "1.2.840.10008.1.2")],
      isImplicitVR := true, isLittleEndian := true }
    (PatientIdentifiers.mk "patient_1" "patient_1" "patient_1-study_1"
      "patient_1-study_1" "patient_1-study_1-0")
    { header := [("FileMetaInformationGroupLength", Val.int 0),
        ("FileMetaInformationVersion", Val.str "b0001"),
        ("TransferSyntaxUID", Val.str "1.2.840.10008.1.2"),
        ("is_implicit_VR", Val.bool true), ("is_little_endian", Val.bool true)],
      minimal := dUpdate [] (PatientIdentifiers.mk "patient_1" "patient_1"
        "patient_1-study_1" "patient_1-study_1" "patient_1-study_1-0").toDict,
      additional := [], special := [],
      all := dUpdate (dUpdate (dUpdate (dUpdate [] (PatientIdentifiers.mk "patient_1"
        "patient_1" "patient_1-study_1" "patient_1-study_1"
        "patient_1-study_1-0").toDict) []) [])
        [("FileMetaInformationGroupLength", Val.int 0),
          ("FileMetaInformationVersion", Val.str "b0001"),
          ("TransferSyntaxUID", Val.str "1.2.840.10008.1.2"),
          ("is_implicit_VR", Val.bool true), ("is_little_endian", Val.bool true)] }
    (by rfl)
  exact h.1

/-! ## C7: file-meta merge precedence in `create_new_dicom` -/

/-- C7 counterexample: a header mapping that already carries
ImplementationClassUID = "X" does not survive the merge — the placeholder
"1.2.3.4" wins, because `file_meta.update(create_basic_filemeta())`
overwrites the header-derived binding before the `setdefault` loop runs.
The claim's "header-derived value is kept on collision" is false. -/
theorem filemeta_merge_counterexample :
    dGet (create_new_dicom_filemeta [("ImplementationClassUID", Val.str "X")])
        "ImplementationClassUID" = some (Val.str "1.2.3.4") ∧
    dGet (create_new_dicom_filemeta [("ImplementationClassUID", Val.str "X")])
        "ImplementationClassUID" ≠ some (Val.str "X") := by
  constructor
  · rfl
  · intro h
    simp [show dGet (create_new_dicom_filemeta [("ImplementationClassUID", Val.str "X")])
      "ImplementationClassUID" = some (Val.str "1.2.3.4") from rfl] at h

/-- C7 amended: the merge is placeholder-wins, not header-wins: the final
file-meta maps a key to its `create_basic_filemeta` placeholder whenever the
key is one of the three placeholder keys, and to the header-derived value
otherwise; header values survive only on the keys the placeholder triple
does not cover (in every caller the header mapping holds only the three
`FILEMETA_KEYWORDS`, so no collision arises in practice). -/
theorem filemeta_merge_placeholder_wins (file_meta : Dict) (q : String) :
    dGet (create_new_dicom_filemeta file_meta) q =
      (dGet create_basic_filemeta q).or (dGet file_meta q) := by
  unfold create_new_dicom_filemeta
  rw [dGet_foldl_setdefault]
  simp only [dGet, Option.none_or]
  unfold dUpdate create_basic_filemeta
  simp only [List.foldl_cons, List.foldl_nil, dGet_dSet, dGet]
  by_cases h1 : "MediaStorageSOPClassUID" = q
  · subst h1; simp [Option.or]
  · by_cases h2 : "MediaStorageSOPInstanceUID" = q
    · subst h2; simp [Option.or]
    · by_cases h3 : "ImplementationClassUID" = q
      · subst h3; simp [Option.or]
      · cases hq : dGet file_meta q <;> simp [h1, h2, h3, Option.or, hq]

/-! ## C10: instance indices enumerate the full study listing -/

theorem collectStudyFiles_eq_enumFrom (sniff : String → Bool) (i : Nat) (fs : List String) :
    collectStudyFiles sniff i fs = (List.enumFrom i fs).filter (fun p => sniff p.2) := by
  induction fs generalizing i with
  | nil => rfl
  | cons f rest ih =>
      by_cases h : sniff f <;>
        simp [collectStudyFiles, List.enumFrom_cons, List.filter_cons, h, ih]

/-- C10: the `anon_dicom_id` of every accepted file is its 0-based position
in `enumerate` of the study folder's full listing, entries skipped by the
content sniff included — the accepted records are exactly the sniff-accepted
entries of the enumerated listing; consequently the indices of a study's
accepted records need not be contiguous and need not start at 0, as in the
concrete listing whose only accepted file gets index 1. -/
theorem instance_indices_count_skipped :
    (∀ (sniff : String → Bool) (fs : List String),
      collectStudyFiles sniff 0 fs = fs.enum.filter (fun p => sniff p.2)) ∧
    collectStudyFiles (fun f => f == "b.dcm") 0 ["a.txt", "b.dcm"] = [(1, "b.dcm")] := by
  constructor
  · intro sniff fs
    exact collectStudyFiles_eq_enumFrom sniff 0 fs
  · rfl

/-! ## C9: raster filename hash payload -/

/-- C9: the code evaluated at the failing input.  For a source filename with
no `.dcm` occurrence, `str.find` returns `-1` and the slice
`filename[: -1]` drops the final character: the hashed payload for
`"image"` is `"imag"`, not `"image"` as the claim states; a filename that
does end in `.dcm` is handled as the claim describes. -/
theorem png_name_drops_last_char (h : String → String) :
    get_dicom_filename h "image" = generate_png_name h "imag" ∧
    get_dicom_filename h "scan1.dcm" = generate_png_name h "scan1" ∧
    get_png_path h "patient_1" "study_1" "image" =
      "patient_1-study_1-" ++ generate_png_name h "imag" ++ ".png" := by
  refine ⟨?_, ?_, ?_⟩
  · unfold get_dicom_filename
    rw [show pySliceTo "image" (pyFind "image" ".dcm") = "imag" from by decide]
  · unfold get_dicom_filename
    rw [show pySliceTo "scan1.dcm" (pyFind "scan1.dcm" ".dcm") = "scan1" from by decide]
  · unfold get_png_path get_dicom_filename
    rw [show pySliceTo "image" (pyFind "image" ".dcm") = "imag" from by decide]
    rw [show ("patient_1" : String) ++ "-" ++ "study_1" ++ "-" = "patient_1-study_1-"
      from by decide]

/-! ## C3: synthetic identifier format -/

/-- C3 counterexample: for the accepted record with patient index 1, study
index 1 and instance index 0, the generated PatientID is the folder name
"patient_1", not `str(1) = "1"`, and the StudyInstanceUID is
"patient_1-study_1", not `"1-1"` (the indices joined by a hyphen): the
caller hands `get_anonymized_identifiers` the folder names, not the bare
indices. -/
theorem synthetic_id_format_counterexample :
    (anonIdentifiersOfIndices 1 1 0).PatientID ≠ "1" ∧
    (anonIdentifiersOfIndices 1 1 0).PatientID = "patient_1" ∧
    (anonIdentifiersOfIndices 1 1 0).StudyInstanceUID ≠ "1-1" ∧
    (anonIdentifiersOfIndices 1 1 0).StudyInstanceUID = "patient_1-study_1" ∧
    (anonIdentifiersOfIndices 1 1 0).SOPInstanceUID ≠ "1-1-0" ∧
    (anonIdentifiersOfIndices 1 1 0).SOPInstanceUID = "patient_1-study_1-0" := by
  decide

/-! ## C5: soft field failure in `extract_special_metadata` -/

theorem dGet_specialFold_key (elems : Dict) (src dkey : String) (F : Val → Val)
    (hsel : ∀ (a : Dict) (t : String), dGet (specialStep elems a t) dkey =
      if t = src ∧ (dGet elems t).isSome then (dGet elems src).map F else dGet a dkey)
    (tags : List String) (acc : Dict) :
    dGet (tags.foldl (specialStep elems) acc) dkey =
      (if src ∈ tags then (dGet elems src).map F else none).or (dGet acc dkey) := by
  induction tags generalizing acc with
  | nil => simp [Option.none_or]
  | cons t ts ih =>
      simp only [List.foldl_cons]
      rw [ih (specialStep elems acc t), hsel]
      by_cases ht : t = src
      · subst ht
        cases hv : dGet elems t with
        | none => simp [hv, List.mem_cons, Option.or]
        | some v =>
            by_cases hm : t ∈ ts <;> simp [hv, hm, List.mem_cons, Option.or]
      · have hts : ¬(src = t) := fun hh => ht hh.symm
        simp [ht, hts, List.mem_cons]

theorem specialStep_age (elems : Dict) (a : Dict) (t : String) :
    dGet (specialStep elems a t) "age" =
      if t = "PatientAge" ∧ (dGet elems t).isSome then
        (dGet elems "PatientAge").map vExtractModifiedAge
      else dGet a "age" := by
  unfold specialStep
  cases hv : dGet elems t with
  | none => simp [hv]
  | some v =>
      by_cases h1 : t = "PatientAge"
      · subst h1; simp [hv, dGet_dSet]
      · by_cases h2 : t = "StudyDate"
        · subst h2; simp [hv, dGet_dSet, h1]
        · by_cases h3 : t = "StudyTime"
          · subst h3; simp [hv, dGet_dSet, h1, h2]
          · simp [hv, h1, h2, h3]

theorem specialStep_dow (elems : Dict) (a : Dict) (t : String) :
    dGet (specialStep elems a t) "day_of_week" =
      if t = "StudyDate" ∧ (dGet elems t).isSome then
        (dGet elems "StudyDate").map vExtractWeekday
      else dGet a "day_of_week" := by
  unfold specialStep
  cases hv : dGet elems t with
  | none => simp [hv]
  | some v =>
      by_cases h1 : t = "PatientAge"
      · subst h1; simp [hv, dGet_dSet]
      · by_cases h2 : t = "StudyDate"
        · subst h2; simp [hv, dGet_dSet, h1]
        · by_cases h3 : t = "StudyTime"
          · subst h3; simp [hv, dGet_dSet, h1, h2]
          · simp [hv, h1, h2, h3]

theorem specialStep_year (elems : Dict) (a : Dict) (t : String) :
    dGet (specialStep elems a t) "year" =
      if t = "StudyDate" ∧ (dGet elems t).isSome then
        (dGet elems "StudyDate").map vExtractYear
      else dGet a "year" := by
  unfold specialStep
  cases hv : dGet elems t with
  | none => simp [hv]
  | some v =>
      by_cases h1 : t = "PatientAge"
      · subst h1; simp [hv, dGet_dSet]
      · by_cases h2 : t = "StudyDate"
        · subst h2; simp [hv, dGet_dSet, h1]
        · by_cases h3 : t = "StudyTime"
          · subst h3; simp [hv, dGet_dSet, h1, h2]
          · simp [hv, h1, h2, h3]

theorem specialStep_hour (elems : Dict) (a : Dict) (t : String) :
    dGet (specialStep elems a t) "hour_of_the_day" =
      if t = "StudyTime" ∧ (dGet elems t).isSome then
        (dGet elems "StudyTime").map vExtractHour
      else dGet a "hour_of_the_day" := by
  unfold specialStep
  cases hv : dGet elems t with
  | none => simp [hv]
  | some v =>
      by_cases h1 : t = "PatientAge"
      · subst h1; simp [hv, dGet_dSet]
      · by_cases h2 : t = "StudyDate"
        · subst h2; simp [hv, dGet_dSet, h1]
        · by_cases h3 : t = "StudyTime"
          · subst h3; simp [hv, dGet_dSet, h1, h2]
          · simp [hv, h1, h2, h3]

/-- C5 counterexample: the claim says a failing field's derived key is
absent from the "special" mapping.  For a record whose PatientAge is the
unparseable "abcY", the produced mapping is `[("age", None)]`: the key
"age" is present, bound to Python `None` (the failing helper's return
value), not absent. -/
theorem special_soft_fail_counterexample :
    extract_special_metadata (fun _ => true) ["PatientAge"]
      { name := "f", elems := [("PatientAge", Val.str "abcY")], fileMeta := [],
        isImplicitVR := true, isLittleEndian := true } =
      Except.ok [("age", Val.null)] ∧
    dGet [("age", Val.null)] "age" ≠ none := by
  exact ⟨rfl, by simp [dGet]⟩

/-- C5 amended: whenever `extract_special_metadata` produces a mapping, each
derived key ("age" from PatientAge, "day_of_week" and "year" from StudyDate,
"hour_of_the_day" from StudyTime) is computed from its own source field
alone — so a failing field never disturbs the others — but a field whose
value fails to parse yields its derived key(s) *present and bound to None*
(the `vExtract…` of the value, which is `Val.null` on failure), rather than
absent; the key is absent only when the source field itself is absent or not
listed in the transform catalog. -/
theorem special_soft_fail_amended (isValid : String → Bool) (tagsCsv : List String)
    (dicom : DicomFile) (d : Dict)
    (h : extract_special_metadata isValid tagsCsv dicom = Except.ok d) :
    dGet d "age" = (if "PatientAge" ∈ tagsCsv then
      (dGet dicom.elems "PatientAge").map vExtractModifiedAge else none) ∧
    dGet d "day_of_week" = (if "StudyDate" ∈ tagsCsv then
      (dGet dicom.elems "StudyDate").map vExtractWeekday else none) ∧
    dGet d "year" = (if "StudyDate" ∈ tagsCsv then
      (dGet dicom.elems "StudyDate").map vExtractYear else none) ∧
    dGet d "hour_of_the_day" = (if "StudyTime" ∈ tagsCsv then
      (dGet dicom.elems "StudyTime").map vExtractHour else none) := by
  unfold extract_special_metadata at h
  by_cases hval : validate_keywords isValid tagsCsv
  · rw [if_pos hval] at h
    injection h with h
    subst h
    refine ⟨?_, ?_, ?_, ?_⟩
    · rw [dGet_specialFold_key dicom.elems "PatientAge" "age" vExtractModifiedAge
        (specialStep_age dicom.elems)]
      simp [dGet, Option.or_none]
    · rw [dGet_specialFold_key dicom.elems "StudyDate" "day_of_week" vExtractWeekday
        (specialStep_dow dicom.elems)]
      simp [dGet, Option.or_none]
    · rw [dGet_specialFold_key dicom.elems "StudyDate" "year" vExtractYear
        (specialStep_year dicom.elems)]
      simp [dGet, Option.or_none]
    · rw [dGet_specialFold_key dicom.elems "StudyTime" "hour_of_the_day" vExtractHour
        (specialStep_hour dicom.elems)]
      simp [dGet, Option.or_none]
  · rw [if_neg hval] at h; exact absurd h (by simp)

/-- C5 witness: the amended theorem applied to a record whose PatientAge
fails to parse (key "age" present, bound to None) while its StudyDate is
processed normally (weekday 3 and year 2023 for 2023-06-15). -/
theorem special_soft_fail_amended_witness :
    dGet [("age", Val.null), ("day_of_week", Val.int 3), ("year", Val.int 2023)] "age" =
      some Val.null ∧
    dGet [("age", Val.null), ("day_of_week", Val.int 3), ("year", Val.int 2023)] "year" =
      some (Val.int 2023) := by
  have h := special_soft_fail_amended (fun _ => true) ["PatientAge", "StudyDate"]
    { name := "f",
      elems := [("PatientAge", Val.str "abcY"), ("StudyDate", Val.str "20230615")],
      fileMeta := [], isImplicitVR := true, isLittleEndian := true }
    [("age", Val.null), ("day_of_week", Val.int 3), ("year", Val.int 2023)] rfl
  exact ⟨by rw [h.1]; rfl, by rw [h.2.2.1]; rfl⟩

/-! ## C6: when keyword validation aborts the run -/

theorem validate_keywords_false (isValid : String → Bool) (l : List String) (kw : String)
    (hm : kw ∈ l) (hb : isValid kw = false) : validate_keywords isValid l = false := by
  unfold validate_keywords
  cases hE : (l.filter (fun k => !isValid k)).isEmpty
  · rfl
  · exfalso
    rw [List.isEmpty_iff] at hE
    have hmem : kw ∈ l.filter (fun k => !isValid k) := List.mem_filter.2 ⟨hm, by simp [hb]⟩
    rw [hE] at hmem
    exact absurd hmem (List.not_mem_nil kw)

theorem extract_metadata_from_dicom_invalid (isValid : String → Bool)
    (tags : List String) (dicom : DicomFile) (kw : String)
    (hm : kw ∈ tags) (hb : isValid kw = false) :
    extract_metadata_from_dicom isValid tags dicom = Except.error "Invalid keywords" := by
  unfold extract_metadata_from_dicom
  rw [validate_keywords_false isValid tags kw hm hb]
  simp

theorem extract_special_metadata_invalid (isValid : String → Bool)
    (tags : List String) (dicom : DicomFile) (kw : String)
    (hm : kw ∈ tags) (hb : isValid kw = false) :
    extract_special_metadata isValid tags dicom = Except.error "Invalid keywords" := by
  unfold extract_special_metadata
  rw [validate_keywords_false isValid tags kw hm hb]
  simp

theorem extract_anonymized_metadata_error (isValid : String → Bool)
    (minT addT modT : List String) (dicom : DicomFile) (ids : PatientIdentifiers)
    (kw : String) (hm : kw ∈ minT ∨ kw ∈ addT ∨ kw ∈ modT) (hb : isValid kw = false) :
    ∃ e, extract_anonymized_metadata isValid minT addT modT dicom ids = Except.error e := by
  unfold extract_anonymized_metadata
  cases hh : extract_dicom_header_metadata dicom with
  | error e => exact ⟨e, by simp [hh, Except.bind, Bind.bind]⟩
  | ok trip =>
      obtain ⟨fm, iVR, iLE⟩ := trip
      rcases hm with hm1 | hm2 | hm3
      · exact ⟨"Invalid keywords", by
          simp [hh, extract_metadata_from_dicom_invalid isValid minT dicom kw hm1 hb,
            Except.bind, Bind.bind]⟩
      · cases h1 : extract_metadata_from_dicom isValid minT dicom with
        | error e => exact ⟨e, by simp [hh, h1, Except.bind, Bind.bind]⟩
        | ok m0 =>
            exact ⟨"Invalid keywords", by
              simp [hh, h1, extract_metadata_from_dicom_invalid isValid addT dicom kw hm2 hb,
                Except.bind, Bind.bind]⟩
      · cases h1 : extract_metadata_from_dicom isValid minT dicom with
        | error e => exact ⟨e, by simp [hh, h1, Except.bind, Bind.bind]⟩
        | ok m0 =>
            cases h2 : extract_metadata_from_dicom isValid addT dicom with
            | error e => exact ⟨e, by simp [hh, h1, h2, Except.bind, Bind.bind]⟩
            | ok a0 =>
                exact ⟨"Invalid keywords", by
                  simp [hh, h1, h2,
                    extract_special_metadata_invalid isValid modT dicom kw hm3 hb,
                    Except.bind, Bind.bind]⟩

/-- C6 counterexample: the claim says an invalid configured keyword aborts
the run before any source file is read.  With an all-rejecting data
dictionary and the minimal list `["Rows"]`, the run over one discovered
file produces the trace `[fileRead "scan1.dcm"]` — the file *is* read
(`pydicom.dcmread` runs inside `extract_anonymized_metadata`) before the
per-file keyword validation raises; the trace is not empty as the claim
requires. -/
theorem keyword_validation_counterexample :
    runGenerateMetadata (fun _ => "") (fun _ => false) ["Rows"] [] []
      [{ patient_folder := "patient_1", study_folder := "study_1", anon_dicom_id := 0,
         filename := "scan1.dcm",
         file := { name := "scan1.dcm", elems := [],
                   fileMeta := [("FileMetaInformationGroupLength", Val.int 0),
                     ("FileMetaInformationVersion", Val.str "b0001"),
                     ("TransferSyntaxUID", Val.str "1.2.840.10008.1.2")],
                   isImplicitVR := true, isLittleEndian := true } }] =
      ([Event.fileRead "scan1.dcm"], Except.error "Invalid keywords") ∧
    [Event.fileRead "scan1.dcm"] ≠ ([] : List Event) := by
  exact ⟨rfl, by simp⟩

/-- C6 amended: an unrecognized keyword in *any* of the three configured
lists (minimal, additional or transform) still aborts the whole run with no
row emitted, but the abort happens *during the first discovered file's
metadata extraction* — after that file has been read — because
`validate_keywords` runs inside every per-file extraction call
(`extract_metadata_from_dicom` for the minimal and additional lists,
`extract_special_metadata` for the transform list) rather than once before
processing: the run's trace is exactly one `fileRead` event and its result
is an error carrying no rows. -/
theorem keyword_validation_aborts_amended (h : String → String) (isValid : String → Bool)
    (minT addT modT : List String) (kw : String) (f : DiscoveredFile)
    (rest : List DiscoveredFile) (hm : kw ∈ minT ∨ kw ∈ addT ∨ kw ∈ modT)
    (hb : isValid kw = false) :
    ∃ e, runGenerateMetadata h isValid minT addT modT (f :: rest) =
      ([Event.fileRead f.file.name], Except.error e) := by
  obtain ⟨e, he⟩ := extract_anonymized_metadata_error isValid minT addT modT f.file
    (get_anonymized_identifiers f.patient_folder f.study_folder (Nat.repr f.anon_dicom_id))
    kw hm hb
  exact ⟨e, by simp [runGenerateMetadata, he]⟩

/-- C6 witness: the amended theorem applied at two concrete inputs, one with
the invalid keyword in the minimal list and one with it only in the
transform list. -/
theorem keyword_validation_aborts_amended_witness :
    (∃ e, runGenerateMetadata (fun _ => "") (fun _ => false) ["Rows"] [] []
      [{ patient_folder := "patient_1", study_folder := "study_1", anon_dicom_id := 0,
         filename := "scan2.dcm",
         file := { name := "scan2.dcm", elems := [], fileMeta := [],
                   isImplicitVR := true, isLittleEndian := true } }] =
      ([Event.fileRead "scan2.dcm"], Except.error e)) ∧
    (∃ e, runGenerateMetadata (fun _ => "") (fun k => !(k == "BadKw")) [] [] ["BadKw"]
      [{ patient_folder := "patient_1", study_folder := "study_1", anon_dicom_id := 0,
         filename := "scan3.dcm",
         file := { name := "scan3.dcm", elems := [],
                   fileMeta := [("FileMetaInformationGroupLength", Val.int 0),
                     ("FileMetaInformationVersion", Val.str "b0001"),
                     ("TransferSyntaxUID", Val.str "1.2.840.10008.1.2")],
                   isImplicitVR := true, isLittleEndian := true } }] =
      ([Event.fileRead "scan3.dcm"], Except.error e)) := by
  constructor
  · exact keyword_validation_aborts_amended (fun _ => "") (fun _ => false) ["Rows"] [] []
      "Rows" _ [] (Or.inl (by simp)) rfl
  · exact keyword_validation_aborts_amended (fun _ => "") (fun k => !(k == "BadKw")) [] []
      ["BadKw"] "BadKw" _ [] (Or.inr (Or.inr (by simp))) (by decide)

/-! ## C1: pixel round trip -/

theorem npInvert_npInvert (w y : Nat) (hy : y < 2 ^ w) : npInvert w (npInvert w y) = y := by
  unfold npInvert
  omega

theorem pixel_elt_roundtrip (bA bS x : Nat) (hbs : bS ≤ bA) (hx : x < 2 ^ bS) :
    npShiftRight (bA - bS) (npShiftLeft bA (bA - bS) x) = x := by
  unfold npShiftLeft npShiftRight
  have hpos : (0 : Nat) < 2 ^ (bA - bS) := Nat.pos_pow_of_pos _ (by norm_num)
  have e : 2 ^ bS * 2 ^ (bA - bS) = 2 ^ bA := by
    rw [← pow_add]
    congr 1
    omega
  have h1 : x * 2 ^ (bA - bS) < 2 ^ bA := by
    rw [← e]
    exact (mul_lt_mul_right hpos).mpr hx
  rw [Nat.mod_eq_of_lt h1, Nat.mul_div_cancel x hpos]

theorem map_eq_self_of (g : Nat → Nat) (l : List Nat) (P : Nat → Prop)
    (hl : ∀ x ∈ l, P x) (hg : ∀ x, P x → g x = x) : l.map g = l := by
  induction l with
  | nil => rfl
  | cons a as ih =>
      simp only [List.map_cons, List.cons.injEq]
      exact ⟨hg a (hl a (List.mem_cons_self a as)),
        ih (fun x hx => hl x (List.mem_cons_of_mem a hx))⟩

theorem mapMat_eq_self (g : Nat → Nat) (X : List (List Nat)) (P : Nat → Prop)
    (hX : ∀ row ∈ X, ∀ x ∈ row, P x) (hg : ∀ x, P x → g x = x) :
    X.map (List.map g) = X := by
  induction X with
  | nil => rfl
  | cons row rest ih =>
      simp only [List.map_cons, List.cons.injEq]
      exact ⟨map_eq_self_of g row P (hX row (List.mem_cons_self row rest)) hg,
        ih (fun r hr => hX r (List.mem_cons_of_mem row hr))⟩

theorem mapMat_mapMat (f g : Nat → Nat) (X : List (List Nat)) :
    (X.map (List.map f)).map (List.map g) = X.map (List.map (fun x => g (f x))) := by
  rw [List.map_map]
  congr 1
  funext l
  simp [List.map_map, Function.comp]

/-- C1 counterexample: the round trip fails for the photometric
interpretation spelled "Monochrome1": extraction upper-cases the value
before comparing (`.upper() == "MONOCHROME1"`), so it inverts, while
reconstruction compares the stored string to "MONOCHROME1" exactly and does
not invert back: the all-zero 8-bit image comes back as all-255. -/
theorem pixel_roundtrip_counterexample :
    reconstructPixelArray 8 8 "Monochrome1" (get_dicom_pixel 8 8 "Monochrome1" [[0]]) =
      [[255]] ∧
    reconstructPixelArray 8 8 "Monochrome1" (get_dicom_pixel 8 8 "Monochrome1" [[0]]) ≠
      [[0]] := by
  constructor
  · rfl
  · decide

/-- C1 amended: the round trip `reconstruct (extract X) = X` holds for every
2-D pixel array whose samples fit in `bitsStored` bits, every
`bitsStored ≤ bitsAllocated`, and every photometric-interpretation string
that is unchanged by upper-casing (as the DICOM defined terms MONOCHROME1
and MONOCHROME2 are) — the restriction the counterexample forces, since
extraction tests the upper-cased value while reconstruction tests the exact
value.  The array dtype is `bitsAllocated` bits wide, and the intermediate
raster is lossless (the extracted array is fed back unchanged). -/
theorem pixel_roundtrip_amended (bA bS : Nat) (photometric : String)
    (X : List (List Nat)) (hbs : bS ≤ bA) (hX : ∀ row ∈ X, ∀ x ∈ row, x < 2 ^ bS)
    (hpi : pyUpper photometric = photometric) :
    reconstructPixelArray bA bS photometric (get_dicom_pixel bA bS photometric X) = X := by
  unfold get_dicom_pixel reconstructPixelArray
  have hAllocPos : (0 : Nat) < 2 ^ bA := Nat.pos_pow_of_pos _ (by norm_num)
  by_cases hm : photometric = "MONOCHROME1"
  · rw [if_pos (hpi.trans hm), if_pos hm]
    by_cases hsh : bS ≠ bA
    · rw [if_pos hsh]
      rw [mapMat_mapMat, mapMat_mapMat, mapMat_mapMat]
      refine mapMat_eq_self _ X (fun x => x < 2 ^ bS) hX (fun x hx => ?_)
      have hlt : npShiftLeft bA (bA - bS) x < 2 ^ bA := by
        unfold npShiftLeft
        exact Nat.mod_lt _ hAllocPos
      rw [npInvert_npInvert bA _ hlt]
      exact pixel_elt_roundtrip bA bS x hbs hx
    · rw [if_neg hsh]
      push_neg at hsh
      subst hsh
      rw [mapMat_mapMat, mapMat_mapMat]
      refine mapMat_eq_self _ X (fun x => x < 2 ^ bS) hX (fun x hx => ?_)
      rw [npInvert_npInvert bS x hx]
      unfold npShiftRight
      simp
  · rw [if_neg (fun hh => hm (hpi.symm.trans hh)), if_neg hm]
    by_cases hsh : bS ≠ bA
    · rw [if_pos hsh]
      rw [mapMat_mapMat]
      refine mapMat_eq_self _ X (fun x => x < 2 ^ bS) hX (fun x hx => ?_)
      exact pixel_elt_roundtrip bA bS x hbs hx
    · rw [if_neg hsh]
      push_neg at hsh
      subst hsh
      refine mapMat_eq_self _ X (fun x => x < 2 ^ bS) hX (fun x _ => ?_)
      unfold npShiftRight
      simp

/-- C1 witness: the amended theorem applied to a 16/12-bit MONOCHROME1
image. -/
theorem pixel_roundtrip_amended_witness :
    (12 ≤ 16 ∧ (∀ row ∈ [[5, 4095], [0, 7]], ∀ x ∈ row, x < 2 ^ 12) ∧
      pyUpper "MONOCHROME1" = "MONOCHROME1") ∧
    reconstructPixelArray 16 12 "MONOCHROME1"
      (get_dicom_pixel 16 12 "MONOCHROME1" [[5, 4095], [0, 7]]) = [[5, 4095], [0, 7]] := by
  refine ⟨⟨by norm_num, by decide, by decide⟩, ?_⟩
  exact pixel_roundtrip_amended 16 12 "MONOCHROME1" [[5, 4095], [0, 7]]
    (by norm_num) (by decide) (by decide)

/-! ## Decimal rendering: facts about `Nat.repr` needed for C3, C4 and C8 -/

theorem digit_cases {m : Nat} (hm : m < 10) :
    m = 0 ∨ m = 1 ∨ m = 2 ∨ m = 3 ∨ m = 4 ∨ m = 5 ∨ m = 6 ∨ m = 7 ∨ m = 8 ∨ m = 9 := by
  omega

theorem digitChar_isDigit {m : Nat} (hm : m < 10) : (Nat.digitChar m).isDigit = true := by
  rcases digit_cases hm with rfl | rfl | rfl | rfl | rfl | rfl | rfl | rfl | rfl | rfl <;> decide

theorem digitChar_toNat {m : Nat} (hm : m < 10) : (Nat.digitChar m).toNat = 48 + m := by
  rcases digit_cases hm with rfl | rfl | rfl | rfl | rfl | rfl | rfl | rfl | rfl | rfl <;> decide

theorem digitChar_eq_zero {m : Nat} (hm : m < 10) : Nat.digitChar m = '0' ↔ m = 0 := by
  rcases digit_cases hm with rfl | rfl | rfl | rfl | rfl | rfl | rfl | rfl | rfl | rfl <;> decide

theorem digitChar_eq_ofNat {k : Nat} (hk : k < 10) : Nat.digitChar k = Char.ofNat (48 + k) := by
  rcases digit_cases hk with rfl | rfl | rfl | rfl | rfl | rfl | rfl | rfl | rfl | rfl <;> decide

theorem char_isDigit_toNat {c : Char} (h : c.isDigit = true) : 48 ≤ c.toNat ∧ c.toNat ≤ 57 := by
  simp [Char.isDigit] at h
  exact ⟨h.1, h.2⟩

theorem digitChar_toNat_sub {c : Char} (h : c.isDigit = true) :
    Nat.digitChar (c.toNat - 48) = c := by
  obtain ⟨h1, h2⟩ := char_isDigit_toNat h
  rw [digitChar_eq_ofNat (by omega), show 48 + (c.toNat - 48) = c.toNat from by omega,
    Char.ofNat_toNat]

theorem natOfDigits_acc (l : List Char) (a : Nat) :
    l.foldl (fun x c => 10 * x + (c.toNat - 48)) a = a * 10 ^ l.length + natOfDigits l := by
  induction l generalizing a with
  | nil => simp [natOfDigits]
  | cons c cs ih =>
      simp only [List.foldl_cons, List.length_cons]
      rw [ih (10 * a + (c.toNat - 48))]
      conv_rhs => rw [natOfDigits, List.foldl_cons, ih (10 * 0 + (c.toNat - 48))]
      ring

theorem natOfDigits_cons (c : Char) (l : List Char) :
    natOfDigits (c :: l) = (c.toNat - 48) * 10 ^ l.length + natOfDigits l := by
  rw [natOfDigits, List.foldl_cons, natOfDigits_acc]
  ring

theorem natOfDigits_concat (l : List Char) (c : Char) :
    natOfDigits (l ++ [c]) = 10 * natOfDigits l + (c.toNat - 48) := by
  rw [natOfDigits, List.foldl_append]
  rfl

theorem natOfDigits_pos {c : Char} {l : List Char} (hd : c.isDigit = true) (hz : c ≠ '0') :
    1 ≤ natOfDigits (c :: l) := by
  obtain ⟨h1, h2⟩ := char_isDigit_toNat hd
  have hne48 : c.toNat ≠ 48 := by
    intro hh
    apply hz
    rw [← digitChar_toNat_sub hd, hh]
    rfl
  rw [natOfDigits_cons]
  have hpow : 1 ≤ 10 ^ l.length := Nat.one_le_pow _ _ (by norm_num)
  have hd1 : 1 ≤ c.toNat - 48 := by omega
  have := Nat.mul_le_mul hd1 hpow
  omega

theorem natOfDigits_all_zero (l : List Char) (h : ∀ c ∈ l, c = '0') : natOfDigits l = 0 := by
  induction l with
  | nil => rfl
  | cons c cs ih =>
      rw [natOfDigits_cons, h c (List.mem_cons_self c cs),
        ih (fun x hx => h x (List.mem_cons_of_mem c hx))]
      simp

theorem toDigitsCore_decomp : ∀ (fuel n : Nat), n < fuel → ∀ acc : List Char,
    ∃ run : List Char,
      run ≠ [] ∧ natOfDigits run = n ∧ (∀ c ∈ run, c.isDigit = true) ∧
        (run.head? = some '0' → run = ['0']) ∧
        Nat.toDigitsCore 10 fuel n acc = run ++ acc := by
  intro fuel
  induction fuel with
  | zero => intro n hn; omega
  | succ fuel ih =>
      intro n hn acc
      have hmod : n % 10 < 10 := Nat.mod_lt _ (by norm_num)
      have hstep : Nat.toDigitsCore 10 (fuel + 1) n acc =
          (if n / 10 = 0 then Nat.digitChar (n % 10) :: acc
           else Nat.toDigitsCore 10 fuel (n / 10) (Nat.digitChar (n % 10) :: acc)) := by
        conv_lhs => rw [Nat.toDigitsCore]
      by_cases h10 : n / 10 = 0
      · refine ⟨[Nat.digitChar (n % 10)], by simp, ?_, ?_, ?_, ?_⟩
        · rw [natOfDigits_cons, digitChar_toNat hmod]
          simp [natOfDigits]
          omega
        · intro c hc
          rw [List.mem_singleton] at hc
          subst hc
          exact digitChar_isDigit hmod
        · intro hh
          rw [List.head?_cons] at hh
          injection hh with hh
          rw [digitChar_eq_zero hmod] at hh
          have hn0 : n = 0 := by omega
          subst hn0
          rfl
        · rw [hstep, if_pos h10]
          rfl
      · obtain ⟨run, hne, hval, hdig, hnlz, hrun⟩ :=
          ih (n / 10) (by omega) (Nat.digitChar (n % 10) :: acc)
        refine ⟨run ++ [Nat.digitChar (n % 10)], by simp, ?_, ?_, ?_, ?_⟩
        · rw [natOfDigits_concat, hval, digitChar_toNat hmod]
          omega
        · intro c hc
          rcases List.mem_append.1 hc with hc | hc
          · exact hdig c hc
          · rw [List.mem_singleton] at hc
            subst hc
            exact digitChar_isDigit hmod
        · intro hh
          exfalso
          obtain ⟨c, cs, rfl⟩ : ∃ c cs, run = c :: cs := by
            cases run with
            | nil => exact absurd rfl hne
            | cons c cs => exact ⟨c, cs, rfl⟩
          rw [List.cons_append, List.head?_cons] at hh
          injection hh with hh
          subst hh
          have h0 := hnlz (by rw [List.head?_cons])
          rw [h0] at hval
          have h00 : natOfDigits ['0'] = 0 := rfl
          omega
        · rw [hstep, if_neg h10, hrun, List.append_assoc]
          rfl

theorem repr_decomp (n : Nat) :
    ∃ ds : List Char, Nat.repr n = ds.asString ∧ ds ≠ [] ∧
      (∀ c ∈ ds, c.isDigit = true) ∧ (ds.head? = some '0' → ds = ['0']) ∧
      natOfDigits ds = n := by
  obtain ⟨ds, h2, h5, h3, h4, hds⟩ := toDigitsCore_decomp (n + 1) n (Nat.lt_succ_self n) []
  refine ⟨ds, ?_, h2, h3, h4, h5⟩
  show (Nat.toDigits 10 n).asString = ds.asString
  rw [Nat.toDigits, hds, List.append_nil]

theorem natOfDigits_repr_data (n : Nat) : natOfDigits (Nat.repr n).data = n := by
  obtain ⟨ds, h1, _, _, _, h5⟩ := repr_decomp n
  rw [h1]
  exact h5

theorem repr_inj {m n : Nat} (h : Nat.repr m = Nat.repr n) : m = n := by
  have h2 := congrArg (fun s => natOfDigits s.data) h
  simp only at h2
  rw [natOfDigits_repr_data, natOfDigits_repr_data] at h2
  exact h2

theorem repr_isDigit (n : Nat) : ∀ c ∈ (Nat.repr n).data, c.isDigit = true := by
  obtain ⟨ds, h1, _, h3, _, _⟩ := repr_decomp n
  rw [h1]
  exact h3

theorem repr_no_hyphen (n : Nat) : '-' ∉ (Nat.repr n).data := by
  intro h
  exact absurd (repr_isDigit n '-' h) (by decide)

theorem hyphen_sep_inj : ∀ (a b c d : List Char), '-' ∉ a → '-' ∉ c →
    a ++ '-' :: b = c ++ '-' :: d → a = c ∧ b = d := by
  intro a
  induction a with
  | nil =>
      intro b c d _ hc h
      cases c with
      | nil =>
          rw [List.nil_append, List.nil_append] at h
          injection h with _ h2
          exact ⟨rfl, h2⟩
      | cons x cs =>
          rw [List.nil_append, List.cons_append] at h
          injection h with h1 _
          rw [← h1] at hc
          exact absurd (List.mem_cons_self _ _) hc
  | cons x xs ih =>
      intro b c d ha hc h
      cases c with
      | nil =>
          rw [List.nil_append, List.cons_append] at h
          injection h with h1 _
          rw [h1] at ha
          exact absurd (List.mem_cons_self _ _) ha
      | cons y cs =>
          rw [List.cons_append, List.cons_append] at h
          injection h with h1 h2
          subst h1
          have ha' : '-' ∉ xs := fun hh => ha (List.mem_cons_of_mem _ hh)
          have hc' : '-' ∉ cs := fun hh => hc (List.mem_cons_of_mem _ hh)
          obtain ⟨e1, e2⟩ := ih b cs d ha' hc' h2
          exact ⟨by rw [e1], e2⟩

theorem data_hyphen_join (u v : String) :
    (u ++ "-" ++ v).data = u.data ++ '-' :: v.data := by
  rw [String.data_append, String.data_append, List.append_assoc]
  rfl

theorem data_hyphen_join3 (u v w : String) :
    (u ++ "-" ++ v ++ "-" ++ w).data = u.data ++ '-' :: (v.data ++ '-' :: w.data) := by
  rw [String.data_append, String.data_append, String.data_append, String.data_append]
  simp [List.append_assoc]

theorem leading_repr_inj (pre : String) {p q : Nat}
    (h : pre ++ Nat.repr p = pre ++ Nat.repr q) : p = q := by
  have h2 := congrArg String.data h
  rw [String.data_append, String.data_append] at h2
  exact repr_inj (String.ext (List.append_cancel_left h2))

theorem patientFolder_no_hyphen (p : Nat) : '-' ∉ ("patient_" ++ Nat.repr p).data := by
  rw [String.data_append]
  intro h
  rcases List.mem_append.1 h with h | h
  · exact absurd h (by decide)
  · exact repr_no_hyphen p h

theorem studyFolder_no_hyphen (s : Nat) : '-' ∉ ("study_" ++ Nat.repr s).data := by
  rw [String.data_append]
  intro h
  rcases List.mem_append.1 h with h | h
  · exact absurd h (by decide)
  · exact repr_no_hyphen s h

/-- C3 amended: the synthetic identifiers of the accepted record with
patient index p, study index s and instance index i are built from the
*folder names*: PatientID = PatientName = "patient_" followed by the decimal
p; StudyInstanceUID = StudyID = the patient folder name and the study folder
name joined by a hyphen; SOPInstanceUID additionally carries the decimal
instance index after a second hyphen.  (The bare indices of the original
claim appear only as suffixes of the folder names.) -/
theorem synthetic_id_format_amended (p s i : Nat) :
    (anonIdentifiersOfIndices p s i).PatientID = "patient_" ++ Nat.repr p ∧
    (anonIdentifiersOfIndices p s i).PatientName = "patient_" ++ Nat.repr p ∧
    (anonIdentifiersOfIndices p s i).StudyInstanceUID =
      "patient_" ++ Nat.repr p ++ "-study_" ++ Nat.repr s ∧
    (anonIdentifiersOfIndices p s i).StudyID =
      "patient_" ++ Nat.repr p ++ "-study_" ++ Nat.repr s ∧
    (anonIdentifiersOfIndices p s i).SOPInstanceUID =
      "patient_" ++ Nat.repr p ++ "-study_" ++ Nat.repr s ++ "-" ++ Nat.repr i := by
  unfold anonIdentifiersOfIndices get_anonymized_identifiers
  refine ⟨rfl, rfl, ?_, ?_, ?_⟩ <;>
    · apply String.ext
      simp [String.data_append, List.append_assoc]

/-- C4: identifier hierarchy.  Two records (with indices p, s, i and q, t, j)
share StudyInstanceUID — equally StudyID — exactly when they agree on
(patient index, study index); they share PatientID exactly when they agree
on the patient index; and they share SOPInstanceUID exactly when the full
index triples coincide, so records differing in the instance index get
distinct SOPInstanceUIDs. -/
theorem identifier_hierarchy (p s i q t j : Nat) :
    ((anonIdentifiersOfIndices p s i).StudyInstanceUID =
      (anonIdentifiersOfIndices q t j).StudyInstanceUID ↔ p = q ∧ s = t) ∧
    ((anonIdentifiersOfIndices p s i).StudyID =
      (anonIdentifiersOfIndices q t j).StudyID ↔ p = q ∧ s = t) ∧
    ((anonIdentifiersOfIndices p s i).PatientID =
      (anonIdentifiersOfIndices q t j).PatientID ↔ p = q) ∧
    ((anonIdentifiersOfIndices p s i).SOPInstanceUID =
      (anonIdentifiersOfIndices q t j).SOPInstanceUID ↔ p = q ∧ s = t ∧ i = j) := by
  unfold anonIdentifiersOfIndices get_anonymized_identifiers
  simp only []
  have hstudy : ("patient_" ++ Nat.repr p) ++ "-" ++ ("study_" ++ Nat.repr s) =
      ("patient_" ++ Nat.repr q) ++ "-" ++ ("study_" ++ Nat.repr t) → p = q ∧ s = t := by
    intro h
    have h2 := congrArg String.data h
    rw [data_hyphen_join, data_hyphen_join] at h2
    obtain ⟨e1, e2⟩ := hyphen_sep_inj _ _ _ _
      (patientFolder_no_hyphen p) (patientFolder_no_hyphen q) h2
    exact ⟨leading_repr_inj "patient_" (String.ext e1),
      leading_repr_inj "study_" (String.ext e2)⟩
  refine ⟨⟨hstudy, ?_⟩, ⟨hstudy, ?_⟩, ⟨?_, ?_⟩, ⟨?_, ?_⟩⟩
  · rintro ⟨rfl, rfl⟩; rfl
  · rintro ⟨rfl, rfl⟩; rfl
  · exact fun h => leading_repr_inj "patient_" h
  · rintro rfl; rfl
  · intro h
    have h2 := congrArg String.data h
    rw [data_hyphen_join3, data_hyphen_join3] at h2
    obtain ⟨e1, e2⟩ := hyphen_sep_inj _ _ _ _
      (patientFolder_no_hyphen p) (patientFolder_no_hyphen q) h2
    obtain ⟨e3, e4⟩ := hyphen_sep_inj _ _ _ _
      (studyFolder_no_hyphen s) (studyFolder_no_hyphen t) e2
    exact ⟨leading_repr_inj "patient_" (String.ext e1),
      leading_repr_inj "study_" (String.ext e3), repr_inj (String.ext e4)⟩
  · rintro ⟨rfl, rfl, rfl⟩; rfl

/-! ## C8: the PatientAge transform -/

theorem natOfDigits_inj_nlz (a : List Char) :
    (∀ c ∈ a, c.isDigit = true) → (a.head? = some '0' → a = ['0']) → a ≠ [] →
    ∀ b : List Char, (∀ c ∈ b, c.isDigit = true) → (b.head? = some '0' → b = ['0']) →
      b ≠ [] → natOfDigits a = natOfDigits b → a = b := by
  induction a using List.reverseRecOn with
  | nil => intro _ _ hne; exact absurd rfl hne
  | append_singleton xs x ih =>
      intro hadig hanlz _ b hbdig hbnlz hbne hval
      rcases List.eq_nil_or_concat b with rfl | ⟨ys, y, hb⟩
      · exact absurd rfl hbne
      · rw [List.concat_eq_append] at hb
        subst hb
        have hx : x.isDigit = true := hadig x (by simp)
        have hy : y.isDigit = true := hbdig y (by simp)
        obtain ⟨hx1, hx2⟩ := char_isDigit_toNat hx
        obtain ⟨hy1, hy2⟩ := char_isDigit_toNat hy
        rw [natOfDigits_concat, natOfDigits_concat] at hval
        have hdx : x.toNat - 48 = y.toNat - 48 := by omega
        have hv : natOfDigits xs = natOfDigits ys := by omega
        have hxy : x = y := by
          rw [← digitChar_toNat_sub hx, ← digitChar_toNat_sub hy, hdx]
        subst hxy
        cases hxs : xs with
        | nil =>
            cases hys : ys with
            | nil => rfl
            | cons y0 ytl =>
                exfalso
                subst hxs hys
                have hy0 : y0.isDigit = true := hbdig y0 (by simp)
                have hy0z : y0 ≠ '0' := by
                  intro hz
                  subst hz
                  have := hbnlz (by simp)
                  have hlen := congrArg List.length this
                  simp at hlen
                have := @natOfDigits_pos y0 ytl hy0 hy0z
                rw [show natOfDigits ([] : List Char) = 0 from rfl] at hv
                omega
        | cons x0 xtl =>
            cases hys : ys with
            | nil =>
                exfalso
                subst hxs hys
                have hx0 : x0.isDigit = true := hadig x0 (by simp)
                have hx0z : x0 ≠ '0' := by
                  intro hz
                  subst hz
                  have := hanlz (by simp)
                  have hlen := congrArg List.length this
                  simp at hlen
                have := @natOfDigits_pos x0 xtl hx0 hx0z
                rw [show natOfDigits ([] : List Char) = 0 from rfl] at hv
                omega
            | cons y0 ytl =>
                subst hxs hys
                have e : x0 :: xtl = y0 :: ytl := by
                  refine ih (fun c hc => hadig c (List.mem_append_left _ hc)) ?_ (by simp)
                    (y0 :: ytl) (fun c hc => hbdig c (List.mem_append_left _ hc)) ?_
                    (by simp) hv
                  · intro hh
                    exfalso
                    rw [List.head?_cons] at hh
                    injection hh with hh
                    subst hh
                    have := hanlz (by simp)
                    have hlen := congrArg List.length this
                    simp at hlen
                  · intro hh
                    exfalso
                    rw [List.head?_cons] at hh
                    injection hh with hh
                    subst hh
                    have := hbnlz (by simp)
                    have hlen := congrArg List.length this
                    simp at hlen
                rw [e]

theorem repr_of_nlz_digits (t : List Char) (hne : t ≠ [])
    (hdig : ∀ c ∈ t, c.isDigit = true) (hnlz : t.head? = some '0' → t = ['0']) :
    Nat.repr (natOfDigits t) = t.asString := by
  obtain ⟨ds, h1, h2, h3, h4, h5⟩ := repr_decomp (natOfDigits t)
  rw [h1]
  congr 1
  exact natOfDigits_inj_nlz ds h3 h4 h2 t hdig hnlz hne h5

theorem natOfDigits_append_zeros (z l : List Char) (hz : ∀ c ∈ z, c = '0') :
    natOfDigits (z ++ l) = natOfDigits l := by
  show (z ++ l).foldl _ 0 = _
  rw [List.foldl_append]
  rw [show z.foldl (fun x c => 10 * x + (c.toNat - 48)) 0 = 0 from natOfDigits_all_zero z hz]
  rfl

theorem head_dropWhile_not (p : Char → Bool) (l : List Char) {c : Char} {rest : List Char}
    (h : l.dropWhile p = c :: rest) : p c = false := by
  induction l with
  | nil => exact absurd h (by simp)
  | cons a as ih =>
      rw [List.dropWhile_cons] at h
      by_cases hp : p a = true
      · rw [if_pos hp] at h
        exact ih h
      · rw [if_neg hp] at h
        injection h with h1 _
        subst h1
        simpa using hp

theorem drop_findIdx_dropWhile (l : List Char) :
    l.drop (l.findIdx (fun c => c ≠ '0')) = l.dropWhile (fun c => c = '0') := by
  induction l with
  | nil => rfl
  | cons a as ih =>
      rw [List.findIdx_cons, List.dropWhile_cons]
      by_cases h : a = '0'
      · subst h
        rw [show (decide (('0' : Char) ≠ '0')) = false from by decide, Bool.cond_false,
          List.drop_succ_cons, ih]
        rfl
      · rw [show (decide (a ≠ '0')) = true from by simp [h], Bool.cond_true, List.drop_zero,
          if_neg (by simp [h])]

theorem drop_length_sub_one : ∀ (l : List Char) (hne : l ≠ []),
    l.drop (l.length - 1) = [l.getLast hne] := by
  intro l
  induction l with
  | nil => intro hne; exact absurd rfl hne
  | cons a as ih =>
      cases as with
      | nil => intro _; rfl
      | cons b bs =>
          intro _
          have hne2 : (b :: bs : List Char) ≠ [] := by simp
          rw [show (a :: b :: bs : List Char).length - 1 = (b :: bs : List Char).length - 1 + 1
            from by simp]
          rw [List.drop_succ_cons, ih hne2]
          rw [List.getLast_cons hne2]

theorem pyParseInt_digits (l : List Char) (hne : l ≠ []) (hdig : ∀ c ∈ l, c.isDigit = true) :
    pyParseInt l.asString = some ((natOfDigits l : Nat) : Int) := by
  obtain ⟨c, cs, rfl⟩ : ∃ c cs, l = c :: cs := by
    cases l with
    | nil => exact absurd rfl hne
    | cons c cs => exact ⟨c, cs, rfl⟩
  have hc := hdig c (List.mem_cons_self c cs)
  unfold pyParseInt
  rw [show (((c :: cs).asString).data) = c :: cs from rfl]
  split
  · rename_i heq
    exact absurd heq (by simp)
  · rename_i rest heq
    injection heq with h1 _
    rw [h1] at hc
    exact absurd hc (by decide)
  · rename_i rest heq
    injection heq with h1 _
    rw [h1] at hc
    exact absurd hc (by decide)
  · rw [if_pos (List.all_eq_true.mpr hdig)]

theorem intStartIndex_min (l : List Char) :
    intStartIndex l = min (l.findIdx (fun c => c ≠ '0')) (l.length - 1) := rfl

theorem strip_digits_spec (l : List Char) (hne : l ≠ []) (hdig : ∀ c ∈ l, c.isDigit = true) :
    ∃ t : List Char,
      l.drop (intStartIndex l) = t ∧
      stripLeadingZeros l.asString = t.asString ∧
      t ≠ [] ∧ (∀ c ∈ t, c.isDigit = true) ∧ (t.head? = some '0' → t = ['0']) ∧
      natOfDigits t = natOfDigits l := by
  have hlen : 0 < l.length := List.length_pos.mpr hne
  cases hd : l.dropWhile (fun c => c = '0') with
  | nil =>
      have hall : ∀ c ∈ l, c = '0' := by
        intro c hc
        have htd := List.takeWhile_append_dropWhile (fun c => decide (c = '0')) l
        rw [hd, List.append_nil] at htd
        rw [← htd] at hc
        have := List.mem_takeWhile_imp hc
        simpa using this
      refine ⟨['0'], ?_, ?_, by simp, by simp, by simp, ?_⟩
      · have hfi : l.drop (l.findIdx (fun c => c ≠ '0')) = [] := by
          rw [drop_findIdx_dropWhile, hd]
        have hge : l.length ≤ l.findIdx (fun c => c ≠ '0') := by
          have hl2 := congrArg List.length hfi
          rw [List.length_drop, List.length_nil] at hl2
          omega
        rw [show intStartIndex l = l.length - 1 from by rw [intStartIndex_min]; omega]
        rw [drop_length_sub_one l hne]
        rw [hall (l.getLast hne) (List.getLast_mem hne)]
      · unfold stripLeadingZeros
        rw [show ((l.asString).data) = l from rfl, hd]
        rfl
      · rw [natOfDigits_all_zero l hall]
        rfl
  | cons t0 ts =>
      have hdrop : l.drop (l.findIdx (fun c => c ≠ '0')) = t0 :: ts := by
        rw [drop_findIdx_dropWhile, hd]
      have hlt : l.findIdx (fun c => c ≠ '0') < l.length := by
        by_contra hge
        push_neg at hge
        have := congrArg List.length hdrop
        rw [List.length_drop] at this
        simp only [List.length_cons] at this
        omega
      have hsub : (t0 :: ts : List Char).Sublist l := by
        rw [← hd]
        exact List.dropWhile_sublist _
      refine ⟨t0 :: ts, ?_, ?_, by simp, ?_, ?_, ?_⟩
      · rw [show intStartIndex l = l.findIdx (fun c => c ≠ '0') from by
          rw [intStartIndex_min]; omega]
        exact hdrop
      · unfold stripLeadingZeros
        rw [show ((l.asString).data) = l from rfl, hd]
      · intro c hc
        exact hdig c (hsub.mem hc)
      · intro hh
        exfalso
        rw [List.head?_cons] at hh
        injection hh with hh
        have := head_dropWhile_not _ l hd
        rw [hh] at this
        simp at this
      · conv_rhs => rw [← List.takeWhile_append_dropWhile (fun c => decide (c = '0')) l, hd]
        rw [natOfDigits_append_zeros]
        intro c hc
        have := List.mem_takeWhile_imp hc
        simpa using this

theorem string_to_int_digits (l : List Char) (hne : l ≠ [])
    (hdig : ∀ c ∈ l, c.isDigit = true) :
    string_to_int l.asString = some ((natOfDigits l : Nat) : Int) := by
  obtain ⟨t, h1, _, h3, h4, h5, h6⟩ := strip_digits_spec l hne hdig
  unfold string_to_int
  rw [show ((l.asString).data) = l from rfl, h1, pyParseInt_digits t h3 h4, h6]

theorem toString_min_int (v : Nat) :
    toString (min (v : Int) 90) = Nat.repr (min v 90) := by
  rw [show min (v : Int) 90 = ((min v 90 : Nat) : Int) from by
    rw [Nat.cast_min]; norm_num]
  rfl

/-- C8: for every age string that is a decimal magnitude (a non-empty digit
run) followed by one unit character, the derived age value is the magnitude
with leading zeros stripped (one digit kept when all zeros), clamped above
at 90, with the original unit re-appended — stated against
`stripLeadingZeros`, which transcribes the claim's wording. -/
theorem patient_age_transform (mag : String) (u : Char) (hne : mag.data ≠ [])
    (hdig : ∀ c ∈ mag.data, c.isDigit = true) :
    extract_modified_age (mag.push u) =
      some ((if natOfDigits mag.data ≤ 90 then stripLeadingZeros mag else "90").push u) := by
  obtain ⟨c, cs, hm⟩ : ∃ c cs, mag.data = c :: cs := by
    cases hmm : mag.data with
    | nil => exact absurd hmm hne
    | cons c cs => exact ⟨c, cs, rfl⟩
  have hpush : (mag.push u).data = c :: (cs ++ [u]) := by
    rw [String.data_push, hm]
    rfl
  unfold extract_modified_age
  rw [hpush]
  simp only []
  have hlast : (c :: (cs ++ [u])).getLast (List.cons_ne_nil c (cs ++ [u])) = u :=
    @List.getLast_concat Char u (c :: cs)
  have hdroplast : (c :: (cs ++ [u])).dropLast = c :: cs :=
    @List.dropLast_concat Char (c :: cs) u
  rw [hlast, hdroplast]
  have hs2i : string_to_int ((c :: cs).asString) =
      some ((natOfDigits (c :: cs) : Nat) : Int) := by
    refine string_to_int_digits (c :: cs) (by simp) ?_
    rw [← hm]
    exact hdig
  rw [hs2i]
  simp only [Option.some.injEq]
  rw [toString_min_int]
  congr 1
  by_cases hv : natOfDigits mag.data ≤ 90
  · rw [if_pos hv]
    have hmin : min (natOfDigits (c :: cs)) 90 = natOfDigits (c :: cs) := by
      rw [hm] at hv
      omega
    rw [hmin]
    obtain ⟨t, _, h2, h3, h4, h5, h6⟩ := strip_digits_spec (c :: cs) (by simp)
      (by rw [← hm]; exact hdig)
    rw [← h6, repr_of_nlz_digits t h3 h4 h5, ← h2]
    rw [show (c :: cs).asString = mag from by rw [← hm]; rfl]
  · rw [if_neg hv]
    have hmin : min (natOfDigits (c :: cs)) 90 = 90 := by
      rw [hm] at hv
      omega
    rw [hmin]
    rfl

/-- C8 witness: the theorem applied at the claim's own examples, "000Y" and
"099Y" (the latter clamped at 90), plus a plain case "049Y". -/
theorem patient_age_transform_witness :
    extract_modified_age "000Y" = some "0Y" ∧
    extract_modified_age "099Y" = some "90Y" ∧
    extract_modified_age "049Y" = some "49Y" := by
  have h1 := patient_age_transform "000" 'Y' (by decide) (by decide)
  have h2 := patient_age_transform "099" 'Y' (by decide) (by decide)
  have h3 := patient_age_transform "049" 'Y' (by decide) (by decide)
  refine ⟨?_, ?_, ?_⟩
  · rw [show ("000Y" : String) = "000".push 'Y' from rfl, h1]
    decide
  · rw [show ("099Y" : String) = "099".push 'Y' from rfl, h2]
    decide
  · rw [show ("049Y" : String) = "049".push 'Y' from rfl, h3]
    decide

end Deid
